import Mathlib

/-!
Verification of the struct codec of `bson/struct_codec.go`: struct descriptor
construction with dominance resolution, the encode and decode traversals,
the emptiness test, the recursive zero builder, the decode error key path,
and the per-codec descriptor cache.  Each Go function is embedded as a pure
Lean function over explicit models of the reflection values it manipulates;
machine details that the claims do not touch (wire encoding, tag parsing)
are abstracted as parameters.
-/

namespace Desc

/-! Model of descriptor construction (lines 399-623 of struct_codec.go).
`encoder` and `decoder` are opaque registry handles; we model them as
optional identifiers, since only their presence matters here. -/

/-- Embeds Go struct `fieldDescription` (struct_codec.go lines 406-416).
`inline = none` models the nil slice, `inline = some l` a non-nil index
slice with entries `l`. -/
structure fieldDescription where
  name : String
  fieldName : String
  idx : Nat
  omitEmpty : Bool
  minSize : Bool
  truncate : Bool
  inline : Option (List Nat)
  encoder : Option String
  decoder : Option String
deriving DecidableEq, Repr

/-- Go `len` of the possibly-nil `inline` slice: `len(nil) = 0`. -/
def inlineList : Option (List Nat) → List Nat
  | none => []
  | some l => l

/-- Shorthand for `len(f.inline)`, the inline depth of a field. -/
def inlineLen (f : fieldDescription) : Nat := (inlineList f.inline).length

/-- Embeds the loop and final length comparison of `byIndex.Less`
(struct_codec.go lines 436-444): lexicographic comparison of the two
inline index sequences, shorter-is-less on a shared prefix. -/
def inlineSeqLess : List Nat → List Nat → Bool
  | [], js => decide (0 < js.length)
  | _ :: _, [] => false
  | i :: is, j :: js => if i ≠ j then decide (i < j) else inlineSeqLess is js

/-- Embeds `byIndex.Less` (struct_codec.go lines 424-445): compare the
top-level index (which for an inlined field is `inline[0]`), then the
inline index sequences lexicographically. -/
def byIndexLess (a b : fieldDescription) : Bool :=
  let iIdx := if 0 < (inlineList a.inline).length then (inlineList a.inline).headD a.idx else a.idx
  let jIdx := if 0 < (inlineList b.inline).length then (inlineList b.inline).headD b.idx else b.idx
  if iIdx ≠ jIdx then decide (iIdx < jIdx)
  else inlineSeqLess (inlineList a.inline) (inlineList b.inline)

/-- Embeds the `sort.Slice` comparator of `describeStructSlow`
(struct_codec.go lines 567-578): by name, then by inline depth, then by
`byIndex` order. -/
def fieldsLess (a b : fieldDescription) : Bool :=
  if a.name ≠ b.name then decide (a.name < b.name)
  else if inlineLen a ≠ inlineLen b then decide (inlineLen a < inlineLen b)
  else byIndexLess a b

/-- Insertion step of the sort modelling `sort.Slice(fields, ...)`. -/
def insertField (x : fieldDescription) : List fieldDescription → List fieldDescription
  | [] => [x]
  | y :: ys => if fieldsLess y x then y :: insertField x ys else x :: y :: ys

/-- Models `sort.Slice(fields, ...)` (struct_codec.go line 567) as an
insertion sort with the same comparator.  The comparator is a strict
order on realistic inputs (distinct fields differ in name, depth, or
index path), so any correct sort produces this list. -/
def sortFields : List fieldDescription → List fieldDescription
  | [] => []
  | x :: xs => insertField x (sortFields xs)

/-- Insertion step for the final `sort.Sort(byIndex(sd.fl))`. -/
def insertByIndex (x : fieldDescription) : List fieldDescription → List fieldDescription
  | [] => [x]
  | y :: ys => if byIndexLess y x then y :: insertByIndex x ys else x :: y :: ys

/-- Models `sort.Sort(byIndex(sd.fl))` (struct_codec.go line 604). -/
def sortByIndex : List fieldDescription → List fieldDescription
  | [] => []
  | x :: xs => insertByIndex x (sortByIndex xs)

/-- Error values produced by `describeStructSlow`; `duplicatedKey t k`
embeds the error built at struct_codec.go line 598. -/
inductive DescError where
  | multipleInlineMaps (tname : String)
  | invalidInlineMapKeys (tname : String)
  | invalidInlineTarget (tname : String)
  | duplicatedKey (tname : String) (key : String)
deriving DecidableEq, Repr

/-- Embeds Go struct `structDescription` (struct_codec.go lines 399-404).
The Go map `fm` is modelled as an association list in insertion order;
`inlineMap = none` models the `-1` sentinel. -/
structure structDescription where
  fm : List (String × fieldDescription)
  fl : List fieldDescription
  inlineMap : Option Nat
  inline : Bool
deriving DecidableEq, Repr

/-- Zero `fieldDescription`, the `fieldDescription{}` returned by
`dominantField` in its failure case. -/
def emptyFieldDescription : fieldDescription :=
  { name := "", fieldName := "", idx := 0, omitEmpty := false, minSize := false,
    truncate := false, inline := none, encoder := none, decoder := none }

/-- Embeds `dominantField` (struct_codec.go lines 614-623).  The input is
the name group in sorted order; the function only compares the inline
depths of the first two entries.  The source indexes `fields[0]` and is
never called on an empty slice. -/
def dominantField : List fieldDescription → fieldDescription × Bool
  | f0 :: f1 :: _ =>
    if inlineLen f0 == inlineLen f1 then (emptyFieldDescription, false) else (f0, true)
  | [f0] => (f0, true)
  | [] => (emptyFieldDescription, false)

/-- Embeds the grouping-and-dominance loop of `describeStructSlow`
(struct_codec.go lines 580-602) over the name-sorted field list.  One
recursive step handles one name run: a run of length one is kept as is;
a longer run goes through `dominantField`, and the result is kept only
when `ok` holds, duplicate overwriting is enabled, and strict duplicate
errors were not requested.  Returns the `fl` additions and `fm` entries
in group order. -/
def resolveDominance (tname : String) (overwrite errorOnDuplicates : Bool) :
    List fieldDescription →
      Except DescError (List fieldDescription × List (String × fieldDescription))
  | [] => .ok ([], [])
  | fi :: rest =>
    let grp := rest.takeWhile (fun fj => fj.name == fi.name)
    if grp.length == 0 then
      (resolveDominance tname overwrite errorOnDuplicates
          (rest.dropWhile (fun fj => fj.name == fi.name))).map
        (fun p => (fi :: p.1, (fi.name, fi) :: p.2))
    else
      match dominantField (fi :: grp) with
      | (_, false) => .error (.duplicatedKey tname fi.name)
      | (dom, true) =>
        if !overwrite || errorOnDuplicates then .error (.duplicatedKey tname fi.name)
        else
          (resolveDominance tname overwrite errorOnDuplicates
              (rest.dropWhile (fun fj => fj.name == fi.name))).map
            (fun p => (dom :: p.1, (fi.name, dom) :: p.2))
termination_by l => l.length
decreasing_by
  all_goals exact Nat.lt_succ_of_le (List.dropWhile_suffix _).length_le

/-- Embeds the dominance stage of `describeStructSlow` (struct_codec.go
lines 566-606) applied to the flattened pending field list built by the
collection phase (lines 484-564): sort by the comparator, resolve each
name group, then order `fl` by `byIndex`.  `inlineMapIdx` and
`inlineFlag` carry the `sd.inlineMap` and `sd.inline` values recorded by
the collection phase. -/
def describeStructSlowFrom (tname : String) (overwrite errorOnDuplicates : Bool)
    (inlineMapIdx : Option Nat) (inlineFlag : Bool) (fields : List fieldDescription) :
    Except DescError structDescription :=
  (resolveDominance tname overwrite errorOnDuplicates (sortFields fields)).map
    (fun p => { fm := p.2, fl := sortByIndex p.1, inlineMap := inlineMapIdx, inline := inlineFlag })

/-- A direct field named "a" at inline depth 0. -/
def fShallow : fieldDescription :=
  { name := "a", fieldName := "A", idx := 0, omitEmpty := false, minSize := false,
    truncate := false, inline := none, encoder := none, decoder := none }

/-- A field named "a" inlined at depth 2 (index path `[1, 0]`). -/
def fDeep : fieldDescription :=
  { name := "a", fieldName := "A", idx := 0, omitEmpty := false, minSize := false,
    truncate := false, inline := some [1, 0], encoder := none, decoder := none }

end Desc

/-- Embeds the configuration fields of the Go `structCodec` struct
(struct_codec.go lines 56-80).  The `cache` field is modelled in namespace
`CacheM` and the `inlineMapEncoder` is passed as a function where used. -/
structure structCodec where
  decodeZeroStruct : Bool
  decodeDeepZeroInline : Bool
  encodeOmitDefaultStruct : Bool
  allowUnexportedFields : Bool
  overwriteDuplicatedInlinedFields : Bool
deriving DecidableEq, Repr

namespace DZ

/-! Model of `deepZero` and the reflection types it walks (struct_codec.go
lines 661-695).  A Go panic is modelled as `Except.error` carrying the
panic message. -/

mutual
/-- A reflection type as seen by `deepZero`: a scalar kind, a pointer, or
a struct with a field list. -/
inductive GType where
  | gInt
  | gString
  | gPtr (elem : GType)
  | gStruct (fields : GFields)
/-- Struct fields with their exported flag (`CanInterface` of the field of
an addressable value holds exactly for exported fields). -/
inductive GFields where
  | fnil
  | fcons (exported : Bool) (ftype : GType) (rest : GFields)
end

/-- A reflection value produced by the zero builders. -/
inductive GVal where
  | vInvalid
  | vInt (n : Int)
  | vString (s : String)
  | vNil
  | vPtrTo (v : GVal)
  | vStruct (fields : List GVal)
deriving Repr

mutual
/-- `reflect.Indirect(reflect.New(st))`: the plain zero value of a type.
Pointer fields of a zero value are nil. -/
def zeroVal : GType → GVal
  | .gInt => .vInt 0
  | .gString => .vString ""
  | .gPtr _ => .vNil
  | .gStruct fs => .vStruct (zeroFields fs)
def zeroFields : GFields → List GVal
  | .fnil => []
  | .fcons _ t rest => zeroVal t :: zeroFields rest
end

/-- Embeds the field loop of `deepZero` (struct_codec.go lines 664-675).
`result` starts as the zero `reflect.Value` (`emptyValue`, modelled as
`vInvalid`) and is initialised to the plain zero of `st` in the first
iteration.  For an exported field `f`, the source tests
`f.Type().Kind() == reflect.Struct` and then evaluates `f.Type().Elem()`;
`reflect.Type.Elem` panics unless the kind is Array, Chan, Map, Pointer or
Slice, so for a struct-kind field the call panics before
`recursivePointerTo`, `deepZero` recursion, or the `Set` ever run (which
is why `recursivePointerTo`, dead code, is not modelled).  Pointer-kind
fields fail the `Kind() == Struct` test and are left untouched. -/
def deepZeroLoop (st : GType) : GFields → GVal → Except String GVal
  | .fnil, result => .ok result
  | .fcons exported ftype rest, result =>
    let result := match result with
      | .vInvalid => zeroVal st
      | r => r
    if exported then
      match ftype with
      | .gStruct _ => .error "reflect: Elem of invalid type"
      | _ => deepZeroLoop st rest result
    else deepZeroLoop st rest result

/-- Embeds `deepZero` (struct_codec.go lines 662-678).  For a non-struct
type the named result is returned still invalid. -/
def deepZero (st : GType) : Except String GVal :=
  match st with
  | .gStruct fs => deepZeroLoop st fs .vInvalid
  | _ => .ok .vInvalid

/-- The struct type `struct { X int }`. -/
def innerStruct : GType := .gStruct (.fcons true .gInt .fnil)

/-- The struct type `struct { P *struct{ X int } }`: one exported
pointer-to-struct field. -/
def ptrFieldStruct : GType := .gStruct (.fcons true (.gPtr innerStruct) .fnil)

/-- The struct type `struct { S struct{ X int } }`: one exported plain
struct field. -/
def structFieldStruct : GType := .gStruct (.fcons true innerStruct .fnil)

end DZ

namespace BDec

/-! Model of `structCodec.DecodeValue` (struct_codec.go lines 202-366) and
the helpers it calls.  The BSON value reader is modelled as a value tree:
reading the top-level null or undefined consumes just that value, a
document supplies its elements in order, and `Skip` discards a value.
Decoders are functions from a decode context and a source value to the new
destination contents. -/

/-- Runtime types as far as the decode path inspects them: the inline map
element type (line 259), the concrete type behind an interface-held
pointer (line 323), and pointer allocation (line 339). -/
inductive DTy where
  | tInt
  | tString
  | tBool
  | tPtr (elem : DTy)
  | tIface
  | tMap (elem : DTy)
  | tStructT (tid : Nat)
deriving DecidableEq, Repr

/-- Reflection values for the decode traversal.  A map carries its element
type (so its element decoder can be resolved even when nil or empty) and
`none` contents model a nil map; a pointer carries its pointee type. -/
inductive DValue where
  | vInt (n : Int)
  | vString (s : String)
  | vBool (b : Bool)
  | vPtr (elemTy : DTy) (pointee : Option DValue)
  | vIface (inner : Option DValue)
  | vMap (elemTy : DTy) (contents : Option (List (String × DValue)))
  | vStruct (tid : Nat) (fields : List DValue)
  | vInvalid
deriving Repr

/-- `reflect.Value.Type()` over the model. -/
def DValue.ty : DValue → DTy
  | .vInt _ => .tInt
  | .vString _ => .tString
  | .vBool _ => .tBool
  | .vPtr t _ => .tPtr t
  | .vIface _ => .tIface
  | .vMap t _ => .tMap t
  | .vStruct tid _ => .tStructT tid
  | .vInvalid => .tIface

mutual
/-- `reflect.Zero(val.Type())`: the zero value of the type of a value; in
the model the shape of a value determines its type. -/
def zeroLike : DValue → DValue
  | .vInt _ => .vInt 0
  | .vString _ => .vString ""
  | .vBool _ => .vBool false
  | .vPtr t _ => .vPtr t none
  | .vIface _ => .vIface none
  | .vMap t _ => .vMap t none
  | .vStruct tid fields => .vStruct tid (zeroLikeList fields)
  | .vInvalid => .vInvalid
/-- Zero values of a struct field list. -/
def zeroLikeList : List DValue → List DValue
  | [] => []
  | v :: rest => zeroLike v :: zeroLikeList rest
end

/-- `reflect.New(t).Elem()`: a freshly allocated zero value of a type.
A struct type is modelled with an empty field list; the claims below
allocate only scalar and map element types this way. -/
def zeroOfTy : DTy → DValue
  | .tInt => .vInt 0
  | .tString => .vString ""
  | .tBool => .vBool false
  | .tPtr t => .vPtr t none
  | .tIface => .vIface none
  | .tMap t => .vMap t none
  | .tStructT tid => .vStruct tid []

/-- Go errors seen on the decode path.  `decodeError keys wrapped` embeds
the `DecodeError` struct (lines 19-23) with its keys in the bottom-up
order they are accumulated in. -/
inductive GoError where
  | plain (msg : String)
  | decodeError (keys : List String) (wrapped : GoError)
  | errNoDecoder (t : DTy)
  | valueDecoderError
  | cannotDecode (tag : String)
deriving DecidableEq, Repr

/-- Embeds `newDecodeError` (struct_codec.go lines 202-213).  `errors.As`
finds a `*DecodeError` in the chain of the original error; in this model a
`decodeError` occurs only at the top of a chain, so the check is a
top-level match.  When the original already is one, the key is appended to
its keys and the same wrapped cause is kept; otherwise a fresh
single-key `DecodeError` wraps the original. -/
def newDecodeError (key : String) (original : GoError) : GoError :=
  match original with
  | .decodeError keys wrapped => .decodeError (keys ++ [key]) wrapped
  | e => .decodeError [key] e

/-- Embeds `DecodeError.Keys` (struct_codec.go lines 41-48): the stored
keys reversed into top-down order; `none` for a non-DecodeError. -/
def decodeErrorKeys : GoError → Option (List String)
  | .decodeError keys _ => some keys.reverse
  | _ => none

/-- Embeds `DecodeError.Unwrap` (struct_codec.go lines 26-28). -/
def decodeErrorUnwrap : GoError → Option GoError
  | .decodeError _ wrapped => some wrapped
  | _ => none

/-- A BSON source value as the reader reports it. -/
inductive BsonValue where
  | null
  | undefined
  | doc (elems : List (String × BsonValue))
  | int32 (n : Int)
  | str (s : String)
  | scalar (tag : String)
deriving Repr

/-- The coarse type tag used in error messages. -/
def bsonTypeName : BsonValue → String
  | .null => "null"
  | .undefined => "undefined"
  | .doc _ => "embedded document"
  | .int32 _ => "32-bit integer"
  | .str _ => "string"
  | .scalar tag => tag

/-- Embeds the flag fields of `DecodeContext`.  The registry is split out
as a separate `Registry` value (Go reaches it as `dc.Registry`); this
avoids a circular definition between contexts and decoders. -/
structure DecodeContext where
  truncate : Bool
  defaultDocumentType : Option DTy
  binaryAsSlice : Bool
  objectIDAsHexString : Bool
  useJSONStructTags : Bool
  useLocalTimeZone : Bool
  zeroMaps : Bool
  zeroStructs : Bool
deriving DecidableEq, Repr

/-- A `ValueDecoder`: reads the source value into the destination under a
context, returning the new destination contents or an error. -/
def Dec := DecodeContext → BsonValue → DValue → Except GoError DValue

/-- `dc.Registry.LookupDecoder`, keyed by runtime type. -/
def Registry := DTy → Except GoError Dec

/-- Embeds the `fieldDescription` data the decode loop reads: document
name, index or inline index path, the truncate flag, and the resolved
decoder. -/
structure fieldDescription where
  name : String
  idx : Nat
  inline : Option (List Nat)
  truncate : Bool
  decoder : Option Dec

/-- Embeds the `structDescription` data the decode loop reads. -/
structure structDescription where
  fm : List (String × fieldDescription)
  inlineMap : Option Nat
  inline : Bool

/-- Lookup in the Go map `sd.fm`, modelled as an association list. -/
def fmLookup (fm : List (String × fieldDescription)) (name : String) :
    Option fieldDescription :=
  (fm.find? (fun p => p.1 == name)).map (·.2)

/-- Lower-casing of one character; the field names this code lower-cases
are ASCII. -/
def lowerChar (c : Char) : Char :=
  if 65 ≤ c.toNat ∧ c.toNat ≤ 90 then Char.ofNat (c.toNat + 32) else c

/-- Models `strings.ToLower` (line 284), an external library call. -/
def toLowerName (s : String) : String := ⟨s.data.map lowerChar⟩

/-- `val.Field(i)` on a struct value. -/
def getField : DValue → Nat → Option DValue
  | .vStruct _ fields, i => fields.get? i
  | _, _ => none

/-- Write into field `i` of a struct value. -/
def setField : DValue → Nat → DValue → DValue
  | .vStruct tid fields, i, v => .vStruct tid (fields.set i v)
  | v, _, _ => v

mutual
/-- Embeds `fieldByIndexErr` (struct_codec.go lines 625-639), i.e.
`reflect.Value.FieldByIndex` with its panics recovered into errors: step
through the index path, dereferencing intermediate pointers; a nil
pointer or a non-struct step panics. -/
def fieldByIndexErr : DValue → List Nat → Except GoError DValue
  | v, [] => .ok v
  | .vPtr _ (some p), i :: rest => fieldByIndexErr p (i :: rest)
  | .vPtr _ none, _ :: _ =>
    .error (.plain "reflect: indirection through a nil pointer")
  | .vStruct _ fields, i :: rest => fieldByIndexList fields i rest
  | _, _ :: _ => .error (.plain "reflect: FieldByIndex of non-struct type")
def fieldByIndexList : List DValue → Nat → List Nat → Except GoError DValue
  | [], _, _ => .error (.plain "reflect: field index out of range")
  | f :: _, 0, rest => fieldByIndexErr f rest
  | _ :: fs, n + 1, rest => fieldByIndexList fs n rest
end

mutual
/-- Pure counterpart of writing through the reflected field resolved by an
index path: replace the value at the path, following pointers.  A bad path
leaves the value unchanged (unreachable for paths that resolved). -/
def setByIndex : DValue → List Nat → DValue → DValue
  | _, [], newv => newv
  | .vPtr t (some p), i :: rest, newv => .vPtr t (some (setByIndex p (i :: rest) newv))
  | .vStruct tid fields, i :: rest, newv => .vStruct tid (setByIndexList fields i rest newv)
  | v, _ :: _, _ => v
def setByIndexList : List DValue → Nat → List Nat → DValue → List DValue
  | [], _, _, _ => []
  | f :: fs, 0, rest, newv => setByIndex f rest newv :: fs
  | f :: fs, n + 1, rest, newv => f :: setByIndexList fs n rest newv
end

/-- `fParent.Set(reflect.New(fParent.Type().Elem()))` (struct_codec.go
line 656): allocate a fresh pointee for a (pointer) parent field. -/
def allocParent : DValue → Except GoError DValue
  | .vPtr t _ => .ok (.vPtr t (some (zeroOfTy t)))
  | _ => .error (.plain "reflect: Elem of invalid type")

/-- After fixing the parent at `parentIdx` to a fresh allocation, re-run
`fieldByIndexErr(val, index)` (struct_codec.go lines 656-658). -/
def fixParent (val : DValue) (parentIdx : List Nat) (fParent : DValue)
    (index : List Nat) : Except GoError (DValue × DValue) :=
  match allocParent fParent with
  | .error e => .error e
  | .ok newParent =>
    let val2 := setByIndex val parentIdx newParent
    match fieldByIndexErr val2 index with
    | .ok field => .ok (field, val2)
    | .error e => .error e

/-- Embeds `getInlineField` (struct_codec.go lines 641-659): resolve the
index path, and on failure recursively materialise the missing nil parent
pointers.  Go mutates the destination in place through the reflected
parent; the pure model returns the updated destination alongside the
resolved field. -/
def getInlineField (val : DValue) (index : List Nat) :
    Except GoError (DValue × DValue) :=
  match fieldByIndexErr val index with
  | .ok field => .ok (field, val)
  | .error e =>
    match h : index with
    | [] => .error e
    | _ :: _ =>
      let inlineParent := index.dropLast
      match fieldByIndexErr val inlineParent with
      | .ok fParent => fixParent val inlineParent fParent index
      | .error _ =>
        match getInlineField val inlineParent with
        | .error e2 => .error e2
        | .ok (fParent, val2) => fixParent val2 inlineParent fParent index
termination_by index.length
decreasing_by
  all_goals
    simp only [h, List.length_dropLast, List.length_cons]
    omega

/-- `inlineMap.SetMapIndex(reflect.ValueOf(name), elem)`: map insert,
overwriting an existing entry for the key. -/
def setMapIndex (contents : List (String × DValue)) (key : String) (v : DValue) :
    List (String × DValue) :=
  if (contents.find? (fun p => p.1 == key)).isSome
  then contents.map (fun p => if p.1 == key then (key, v) else p)
  else contents ++ [(key, v)]

/-- The derived `DecodeContext` forwarded to a matched field decoder
(struct_codec.go lines 343-353): `truncate` is OR-ed with the field flag,
the listed flags are forwarded. -/
def childContext (fd : fieldDescription) (dc : DecodeContext) : DecodeContext :=
  { truncate := fd.truncate || dc.truncate
    defaultDocumentType := dc.defaultDocumentType
    binaryAsSlice := dc.binaryAsSlice
    objectIDAsHexString := dc.objectIDAsHexString
    useJSONStructTags := dc.useJSONStructTags
    useLocalTimeZone := dc.useLocalTimeZone
    zeroMaps := dc.zeroMaps
    zeroStructs := dc.zeroStructs }

/-- `true` exactly for the shape handled by the interface special case of
the decode loop: `field.Kind() == reflect.Interface && !field.IsNil() &&
field.Elem().Kind() == reflect.Ptr` with a non-nil pointer; the source
then decodes into `field.Elem().Elem()`, which for a nil pointer is the
invalid value — the modelled scenarios keep the pointer non-nil. -/
def isIfacePtrShape : DValue → Bool
  | .vIface (some (.vPtr _ (some _))) => true
  | _ => false

/-- Write a new value into the field described by `fd` (direct index or
inline path). -/
def writeField (val : DValue) (fd : fieldDescription) (newv : DValue) : DValue :=
  match fd.inline with
  | none => setField val fd.idx newv
  | some index => setByIndex val index newv

/-- One iteration of the element loop of `structCodec.DecodeValue`
(struct_codec.go lines 270-363).  The state is the destination struct
together with the function-scoped `decoder` variable: it is pre-loaded
with the inline-map element decoder, and the interface-pointer special
case reassigns that same variable in place (line 323 uses `=`, not `:=`).
The branches mirror the source in order: name lookup with lowercase
fallback; unmatched names go to the inline map (the element decode error
returned unchanged, line 305) or are skipped; matched fields resolve the
physical field, handle the interface-pointer case, allocate a nil
pointer, and decode with the field decoder under the derived context,
wrapping any failure with the field document name. -/
def decodeElem (reg : Registry) (dc : DecodeContext) (sd : structDescription)
    (st : DValue × Option Dec) (name : String) (vr : BsonValue) :
    Except GoError (DValue × Option Dec) :=
  let val := st.1
  let decoderVar := st.2
  let fdOpt := match fmLookup sd.fm name with
    | some fd => some fd
    | none => fmLookup sd.fm (toLowerName name)
  match fdOpt with
  | none =>
    match sd.inlineMap with
    | none => .ok (val, decoderVar)
    | some im =>
      let val := match getField val im with
        | some (.vMap ety none) => setField val im (.vMap ety (some []))
        | _ => val
      match getField val im with
      | some (.vMap ety contents) =>
        let elem := zeroOfTy ety
        match decoderVar with
        | none => .error (.plain "runtime: invalid memory address or nil pointer dereference")
        | some d =>
          match d dc vr elem with
          | .error e => .error e
          | .ok elem2 =>
            .ok (setField val im (.vMap ety (some (setMapIndex (contents.getD []) name elem2))),
              decoderVar)
      | _ => .error (.plain "reflect: not a map")
  | some fd =>
    let fres : Except GoError (DValue × DValue) :=
      match fd.inline with
      | none =>
        match getField val fd.idx with
        | some f => .ok (f, val)
        | none => .error (.plain "reflect: field index out of range")
      | some index => getInlineField val index
    match fres with
    | .error e => .error e
    | .ok (field, val) =>
      match field with
      | .vIface (some (.vPtr pt (some pv))) =>
        match reg pv.ty with
        | .error e => .error e
        | .ok dnew =>
          match dnew dc vr pv with
          | .error e => .error (newDecodeError fd.name e)
          | .ok pv2 =>
            .ok (writeField val fd (.vIface (some (.vPtr pt (some pv2)))), some dnew)
      | _ =>
        let field := match field with
          | .vPtr t none => DValue.vPtr t (some (zeroOfTy t))
          | f => f
        match fd.decoder with
        | none => .error (newDecodeError fd.name (.errNoDecoder field.ty))
        | some d =>
          match d (childContext fd dc) vr field with
          | .error e => .error (newDecodeError fd.name e)
          | .ok field2 => .ok (writeField val fd field2, decoderVar)

/-- The element loop of `DecodeValue` (struct_codec.go lines 270-363):
elements are read in order until end of document; the first failing
iteration aborts the whole call.  `field.CanSet()` holds for every
modelled field (the descriptor lists only exported fields of a settable
destination), so the not-settable branch of line 334 never fires in the
model. -/
def decodeElems (reg : Registry) (dc : DecodeContext) (sd : structDescription) :
    List (String × BsonValue) → DValue × Option Dec →
      Except GoError (DValue × Option Dec)
  | [], st => .ok st
  | (name, vr) :: rest, st =>
    match decodeElem reg dc sd st name vr with
    | .error e => .error e
    | .ok st2 => decodeElems reg dc sd rest st2

/-- `val.Kind() == reflect.Struct` over the model. -/
def isStructKind : DValue → Bool
  | .vStruct _ _ => true
  | _ => false

/-- The `val.Set(deepZero(val.Type()))` pre-pass of line 252, mirrored
over the shape of the decode destination (the faithful type-level model of
`deepZero` is in namespace `DZ`): a struct-kind field panics in
`reflect.Type.Elem`; an empty struct leaves `deepZero` returning the
invalid value, which `Set` rejects; otherwise the result is the plain
zero, pointer fields left nil. -/
def deepZeroSet : DValue → Except GoError DValue
  | .vStruct _ [] => .error (.plain "reflect: Set using zero Value argument")
  | .vStruct tid fields =>
    if fields.any (fun f => isStructKind f)
    then .error (.plain "reflect: Elem of invalid type")
    else .ok (.vStruct tid (zeroLikeList fields))
  | v => .ok v

/-- Embeds `structCodec.DecodeValue` (struct_codec.go lines 215-366).
`canSet` models `val.CanSet()`; `sd` is the descriptor `describeStruct`
returns for the destination type (its construction is modelled in
namespaces `Desc` and `CacheM`; the null and undefined branches return
before that call in the source).  A null or undefined source value is
consumed, the destination reset to its zero value, and success returned
without reading any document element; a document runs the optional zero
pre-passes, resolves the inline-map element decoder once (lines 255-263),
and folds the element loop; any other source type is an error. -/
def DecodeValue (sc : structCodec) (reg : Registry) (dc : DecodeContext)
    (sd : structDescription) (vr : BsonValue) (canSet : Bool) (val : DValue) :
    Except GoError DValue :=
  if !canSet || !(isStructKind val) then .error .valueDecoderError
  else
    match vr with
    | .null => .ok (zeroLike val)
    | .undefined => .ok (zeroLike val)
    | .doc elems =>
      let val := if sc.decodeZeroStruct || dc.zeroStructs then zeroLike val else val
      match (if sc.decodeDeepZeroInline && sd.inline then deepZeroSet val else .ok val) with
      | .error e => .error e
      | .ok val =>
        let dres : Except GoError (Option Dec) :=
          match sd.inlineMap with
          | none => .ok none
          | some im =>
            match getField val im with
            | some (.vMap ety _) =>
              match reg ety with
              | .error e => .error e
              | .ok d => .ok (some d)
            | _ => .error (.plain "reflect: Elem of invalid type")
        match dres with
        | .error e => .error e
        | .ok decoder0 =>
          match decodeElems reg dc sd elems (val, decoder0) with
          | .error e => .error e
          | .ok st => .ok st.1
    | other => .error (.cannotDecode (bsonTypeName other))

/-- Decode context with every flag off. -/
def dcDefault : DecodeContext :=
  { truncate := false, defaultDocumentType := none, binaryAsSlice := false,
    objectIDAsHexString := false, useJSONStructTags := false,
    useLocalTimeZone := false, zeroMaps := false, zeroStructs := false }

/-- The codec options `newStructCodec` installs (line 88-93): only
`overwriteDuplicatedInlinedFields` is on. -/
def scDefault : structCodec :=
  { decodeZeroStruct := false, decodeDeepZeroInline := false,
    encodeOmitDefaultStruct := false, allowUnexportedFields := false,
    overwriteDuplicatedInlinedFields := true }

/-- A decoder that always fails with the given error. -/
def failDec (e : GoError) : Dec := fun _ _ _ => .error e

/-- Descriptor of a struct type with a single direct field named `n`
decoded by `d`; the building block of the nested decode scenarios. -/
def singleFieldSd (n : String) (d : Dec) : structDescription :=
  { fm := [(n, { name := n, idx := 0, inline := none, truncate := false, decoder := some d })],
    inlineMap := none, inline := false }

/-- The decoder the registry would return for each struct level along a
name chain: level `i` is the struct codec decoding a document whose single
field `ns[i]` is decoded by the next level, the innermost by `d`. -/
def chainDecoder (reg : Registry) : List String → Dec → Dec
  | [], d => d
  | n :: rest, d =>
    fun dc vr dest =>
      DecodeValue scDefault reg dc (singleFieldSd n (chainDecoder reg rest d)) vr true dest

/-- The nested document `{n1: {n2: ... {nk: leaf}}}`. -/
def nestDoc : List String → BsonValue → BsonValue
  | [], leaf => leaf
  | n :: rest, leaf => .doc [(n, nestDoc rest leaf)]

/-- The matching nested single-field struct destination. -/
def nestDest : List String → DValue
  | [] => .vInt 0
  | _ :: rest => .vStruct 0 [nestDest rest]

/-- String element decoder for the inline-map scenario: accepts a BSON
string, and renders a 32-bit integer with an `int:` tag so that results of
distinct decoders are observably different. -/
def strDec : Dec := fun _ vr _ =>
  match vr with
  | .str s => .ok (.vString s)
  | .int32 n => .ok (.vString ("int:" ++ toString n))
  | v => .error (.plain ("cannot decode " ++ bsonTypeName v ++ " into a string type"))

/-- Int decoder for the interface-held pointer field. -/
def intDec : Dec := fun _ vr _ =>
  match vr with
  | .int32 n => .ok (.vInt n)
  | v => .error (.plain ("cannot decode " ++ bsonTypeName v ++ " into an int type"))

/-- Registry resolving string and int decoders, as a decode call on
`struct { F any; M map[string]string "inline" }` would use. -/
def regC2 : Registry := fun t =>
  match t with
  | .tString => .ok strDec
  | .tInt => .ok intDec
  | _ => .error (.errNoDecoder t)

/-- Descriptor of `struct { F any; M map[string]string "inline" }`: field 0
is the interface field under document name `f`, field 1 the inline map.
The interface field decoder is irrelevant (the interface-pointer special
case bypasses it). -/
def sdC2 : structDescription :=
  { fm := [("f", { name := "f", idx := 0, inline := none, truncate := false, decoder := none })],
    inlineMap := some 1, inline := true }

/-- Destination for the C2 scenario: the interface field holds a pointer
to an int, the inline map is nil. -/
def destC2 : DValue :=
  .vStruct 0 [.vIface (some (.vPtr .tInt (some (.vInt 0)))), .vMap .tString none]

/-- Document for the C2 scenario: the interface field first, then an
element matching no field. -/
def docC2 : List (String × BsonValue) := [("f", .int32 5), ("extra", .int32 7)]

end BDec

namespace BEnc

/-! Model of `structCodec.EncodeValue` (struct_codec.go lines 96-200) and
`isEmpty` (lines 368-397).  Reflection values carry exactly what these
functions inspect: the kind, nil-ness, length, the `Zeroer` capability
(`none` when the type does not implement it, `some b` when it does and
`IsZero` answers `b`), `IsZero` for the remaining kinds, and for structs
the `time.Time` test and the field list with export and anonymous flags. -/

mutual
/-- A reflection value as the encode path and `isEmpty` see it.  `scalar`
covers the kinds outside the explicit switch cases; `coll` covers the
Array, Map, Slice and String kinds with their length. -/
inductive RValue where
  | invalid
  | scalar (zero : Bool) (zeroer : Option Bool)
  | ptr (pointee : Option RValue) (zeroer : Option Bool)
  | coll (len : Nat) (zeroer : Option Bool)
  | strct (isTime : Bool) (timeZero : Bool) (fields : RFields) (zeroer : Option Bool)
  | iface (inner : Option RValue)
/-- Struct fields with the `PkgPath != ""` (unexported) and `Anonymous`
flags of their `StructField`. -/
inductive RFields where
  | fnil
  | fcons (unexported anonymous : Bool) (v : RValue) (rest : RFields)
end

/-- `v.Type().Implements(tZeroer)` together with the `IsZero()` answer. -/
def zeroerOf : RValue → Option Bool
  | .invalid => none
  | .scalar _ z => z
  | .ptr _ z => z
  | .coll _ z => z
  | .strct _ _ _ z => z
  | .iface _ => none

/-- `v.Kind() == reflect.Ptr`. -/
def isPtrKind : RValue → Bool
  | .ptr _ _ => true
  | _ => false

/-- `v.IsNil()` for a pointer. -/
def ptrIsNil : RValue → Bool
  | .ptr none _ => true
  | _ => false

/-- `v.Kind() == reflect.Interface`. -/
def isIfaceKind : RValue → Bool
  | .iface _ => true
  | _ => false

mutual
/-- Embeds `isEmpty` (struct_codec.go lines 368-397).  The capability
check first — except for a nil pointer, which skips it; then the length
kinds; then the struct kind, empty only under `omitZeroStruct`, with
`time.Time` answering its own `IsZero` and other structs recursing over
their fields, skipping unexported non-anonymous ones; every other kind is
empty iff invalid or equal to its zero value. -/
def isEmpty (v : RValue) (omitZeroStruct : Bool) : Bool :=
  if (!(isPtrKind v) || !(ptrIsNil v)) && (zeroerOf v).isSome then
    (zeroerOf v).getD false
  else
    match v with
    | .coll len _ => len == 0
    | .strct isTime timeZero fields _ =>
      if !omitZeroStruct then false
      else if isTime then timeZero
      else isEmptyFields fields omitZeroStruct
    | .invalid => true
    | .scalar z _ => z
    | .ptr p _ => p.isNone
    | .iface i => i.isNone
/-- The field loop of the struct case (lines 384-393): skip a field with
`PkgPath != "" && !Anonymous`, otherwise require it recursively empty. -/
def isEmptyFields (fs : RFields) (omitZeroStruct : Bool) : Bool :=
  match fs with
  | .fnil => true
  | .fcons unexported anonymous v rest =>
    if unexported && !anonymous then isEmptyFields rest omitZeroStruct
    else isEmpty v omitZeroStruct && isEmptyFields rest omitZeroStruct
end

mutual
/-- The emptiness test exactly as claim C7 words it: a value exposing the
self-zero-reporting capability defers to it unconditionally; container and
string kinds by length; structs only in aggressive-zero mode, the
calendar-time type by its own check, other structs when every exported
field is recursively empty; other kinds when invalid or zero. -/
def emptyClaimed (v : RValue) (aggressiveZero : Bool) : Bool :=
  match zeroerOf v with
  | some answer => answer
  | none =>
    match v with
    | .coll len _ => len == 0
    | .strct isTime timeZero fields _ =>
      if !aggressiveZero then false
      else if isTime then timeZero
      else emptyClaimedFields fields aggressiveZero
    | .invalid => true
    | .scalar z _ => z
    | .ptr p _ => p.isNone
    | .iface i => i.isNone
/-- Field clause of the claim as stated: every exported field recursively
empty (anonymous unexported fields not consulted). -/
def emptyClaimedFields (fs : RFields) (aggressiveZero : Bool) : Bool :=
  match fs with
  | .fnil => true
  | .fcons unexported _ v rest =>
    if unexported then emptyClaimedFields rest aggressiveZero
    else emptyClaimed v aggressiveZero && emptyClaimedFields rest aggressiveZero
end

mutual
/-- The emptiness test as the amended claim words it: a value exposing the
capability defers to it unless it is a nil pointer (which falls through to
the generic zero test); container and string kinds by length; structs only
in aggressive-zero mode, the calendar-time type by its own check, other
structs when every field that is exported or anonymous is recursively
empty; every other kind when invalid or zero. -/
def emptySpec (v : RValue) (aggressiveZero : Bool) : Bool :=
  if (zeroerOf v).isSome && !(isPtrKind v && ptrIsNil v) then
    (zeroerOf v).getD false
  else
    match v with
    | .coll len _ => len == 0
    | .strct isTime timeZero fields _ =>
      if !aggressiveZero then false
      else if isTime then timeZero
      else emptySpecFields fields aggressiveZero
    | .invalid => true
    | .scalar z _ => z
    | .ptr p _ => p.isNone
    | .iface i => i.isNone
/-- Field clause of the amended claim: every field that is exported or
anonymous is recursively empty. -/
def emptySpecFields (fs : RFields) (aggressiveZero : Bool) : Bool :=
  match fs with
  | .fnil => true
  | .fcons unexported anonymous v rest =>
    if !unexported || anonymous then
      emptySpec v aggressiveZero && emptySpecFields rest aggressiveZero
    else emptySpecFields rest aggressiveZero
end

/-- The nil-pointer counterexample value: a pointer type implementing the
capability whose `IsZero` would answer `false`, currently nil. -/
def nilPtrZeroer : RValue := .ptr none (some false)

/-- What an encoder writes for one element; `payload` is an opaque tag so
distinct encoders are observable. -/
inductive WrittenValue where
  | nullValue
  | payload (tag : String)
deriving DecidableEq, Repr

/-- Errors on the encode path; `errInvalidValue` is the sentinel the
source compares with `errors.Is` (line 127). -/
inductive EncError where
  | valueEncoderError
  | errInvalidValue
  | errNoEncoder
  | encFailed (msg : String)
deriving DecidableEq, Repr

/-- Embeds the `EncodeContext` flag fields the encode path reads and
forwards (the registry is split out as `eRegistry`). -/
structure EncodeContext where
  minSize : Bool
  errorOnInlineDuplicates : Bool
  stringifyMapKeysWithFmt : Bool
  nilMapAsEmpty : Bool
  nilSliceAsEmpty : Bool
  nilByteSliceAsEmpty : Bool
  omitZeroStruct : Bool
  useJSONStructTags : Bool
  omitEmpty : Bool
deriving DecidableEq, Repr

/-- A `ValueEncoder`: encodes a value under a context into one written
element value. -/
def Enc := EncodeContext → RValue → Except EncError WrittenValue

/-- `ec.Registry.LookupEncoder` for the dynamic re-resolution on a
concrete value held by an interface; `none` models a lookup failure. -/
def eRegistry := RValue → Option Enc

/-- Embeds the `fieldDescription` data the encode loop reads. -/
structure fieldDescription where
  name : String
  idx : Nat
  inline : Option (List Nat)
  omitEmpty : Bool
  minSize : Bool
  encoder : Option Enc

/-- Embeds the `structDescription` data the encode loop reads. -/
structure structDescription where
  fm : List (String × fieldDescription)
  fl : List fieldDescription
  inlineMap : Option Nat
  inline : Bool

/-- Index into the field list of a struct value. -/
def RFields.get? : RFields → Nat → Option RValue
  | .fnil, _ => none
  | .fcons _ _ v _, 0 => some v
  | .fcons _ _ _ rest, n + 1 => RFields.get? rest n

/-- `val.Field(i)` on a struct value. -/
def getFieldR : RValue → Nat → Option RValue
  | .strct _ _ fields _, i => RFields.get? fields i
  | _, _ => none

mutual
/-- `fieldByIndexErr` (struct_codec.go lines 625-639) over the encode
value model: resolve an inline index path, failing on a nil intermediate
pointer (the recovered reflect panic). -/
def fieldByIdx : RValue → List Nat → Except String RValue
  | v, [] => .ok v
  | .ptr (some p) _, i :: rest => fieldByIdx p (i :: rest)
  | .ptr none _, _ :: _ => .error "reflect: indirection through a nil pointer"
  | .strct _ _ fields _, i :: rest => fieldByIdxFields fields i rest
  | _, _ :: _ => .error "reflect: FieldByIndex of non-struct type"
def fieldByIdxFields : RFields → Nat → List Nat → Except String RValue
  | .fnil, _, _ => .error "reflect: field index out of range"
  | .fcons _ _ v _, 0, rest => fieldByIdx v rest
  | .fcons _ _ _ fs, n + 1, rest => fieldByIdxFields fs n rest
end

/-- Modelled from the spec: `lookupElementEncoder` is not part of
struct_codec.go.  Per the spec (section 4.2 step 2): when the field value
is an interface currently holding a concrete value, the encoder is
re-resolved dynamically for the concrete value and the value unwrapped;
an interface holding no value reports `errInvalidValue` ("no concrete
value"); any other value keeps the original encoder.  Returns the new
encoder, the new current value, and the optional error, as the source
assigns them at line 125. -/
def lookupElementEncoder (reg : eRegistry) (origEncoder : Option Enc) (rv : RValue) :
    Option Enc × RValue × Option EncError :=
  match rv with
  | .iface none => (origEncoder, rv, some .errInvalidValue)
  | .iface (some inner) => (reg inner, inner, none)
  | _ => (origEncoder, rv, none)

/-- The derived `EncodeContext` forwarded to a field encoder
(struct_codec.go lines 169-179): `minSize` OR-ed with the field flag, the
listed flags forwarded, everything else — notably `omitEmpty` — reset. -/
def childEncodeContext (desc : fieldDescription) (ec : EncodeContext) : EncodeContext :=
  { minSize := desc.minSize || ec.minSize
    errorOnInlineDuplicates := ec.errorOnInlineDuplicates
    stringifyMapKeysWithFmt := ec.stringifyMapKeysWithFmt
    nilMapAsEmpty := ec.nilMapAsEmpty
    nilSliceAsEmpty := ec.nilSliceAsEmpty
    nilByteSliceAsEmpty := ec.nilByteSliceAsEmpty
    omitZeroStruct := ec.omitZeroStruct
    useJSONStructTags := ec.useJSONStructTags
    omitEmpty := false }

/-- Embeds the field loop of `structCodec.EncodeValue` (struct_codec.go
lines 110-184), one recursive step per field of `sd.fl`.  Go ranges with
`for _, desc := range sd.fl`, so `desc` is a copy: the `omitEmpty`
overwrite at line 122 and the encoder reassignment at line 125 are
modelled as record updates of the per-iteration copy, never of the
descriptor.  An inline field whose ancestor resolution fails is skipped
(line 117); the `errInvalidValue` result of the element-encoder lookup
skips the field under `omitEmpty` and otherwise writes an explicit null
element, in neither case failing; a missing encoder fails; an empty value
under `omitEmpty` is skipped (the interface nil check at lines 153-157
stands in for `isEmpty` on interfaces); otherwise the field encoder runs
under the derived context and its element is emitted. -/
def encodeFields (sc : structCodec) (reg : eRegistry) (ec : EncodeContext)
    (val : RValue) : List fieldDescription → Except EncError (List (String × WrittenValue))
  | [] => .ok []
  | desc0 :: rest =>
    let step : Option RValue :=
      match desc0.inline with
      | none => getFieldR val desc0.idx
      | some index =>
        match fieldByIdx val index with
        | .ok rv => some rv
        | .error _ => none
    match desc0.inline, step with
    | none, none => .error (.encFailed "reflect: Field index out of range")
    | some _, none => encodeFields sc reg ec val rest
    | _, some rv0 =>
      let desc1 := if ec.omitEmpty then { desc0 with omitEmpty := true } else desc0
      let lres := lookupElementEncoder reg desc1.encoder rv0
      let desc := { desc1 with encoder := lres.1 }
      let rv := lres.2.1
      match lres.2.2 with
      | some e =>
        if e != EncError.errInvalidValue then .error e
        else if desc.omitEmpty then encodeFields sc reg ec val rest
        else
          (encodeFields sc reg ec val rest).map
            (fun elems => (desc.name, WrittenValue.nullValue) :: elems)
      | none =>
        match desc.encoder with
        | none => .error .errNoEncoder
        | some encoder =>
          let empty :=
            match rv with
            | .iface inner => inner.isNone
            | _ => isEmpty rv (sc.encodeOmitDefaultStruct || ec.omitZeroStruct)
          if desc.omitEmpty && empty then encodeFields sc reg ec val rest
          else
            match encoder (childEncodeContext desc ec) rv with
            | .error e => .error e
            | .ok out =>
              (encodeFields sc reg ec val rest).map
                (fun elems => (desc.name, out) :: elems)

/-- `val.Kind() == reflect.Struct`. -/
def isStructKindR : RValue → Bool
  | .strct _ _ _ _ => true
  | _ => false

/-- Embeds `structCodec.EncodeValue` (struct_codec.go lines 96-200).  The
document writer is modelled by the returned element list; the descriptor
is an input (its construction is modelled in namespaces `Desc` and
`CacheM`); `inlineMapEncode` models
`sc.inlineMapEncoder.encodeMapElements`, invoked after the field loop with
the collision test over `sd.fm` (lines 186-197). -/
def EncodeValue (sc : structCodec) (reg : eRegistry)
    (inlineMapEncode : EncodeContext → RValue → (String → Bool) →
      Except EncError (List (String × WrittenValue)))
    (ec : EncodeContext) (sd : structDescription) (val : RValue) :
    Except EncError (List (String × WrittenValue)) :=
  if !(isStructKindR val) then .error .valueEncoderError
  else
    match encodeFields sc reg ec val sd.fl with
    | .error e => .error e
    | .ok elems =>
      match sd.inlineMap with
      | none => .ok elems
      | some im =>
        match getFieldR val im with
        | none => .error (.encFailed "reflect: Field index out of range")
        | some rv =>
          match inlineMapEncode ec rv
              (fun key => (sd.fm.find? (fun p => p.1 == key)).isSome) with
          | .error e => .error e
          | .ok extra => .ok (elems ++ extra)

/-- Encode context with every flag off. -/
def ecOff : EncodeContext :=
  { minSize := false, errorOnInlineDuplicates := false,
    stringifyMapKeysWithFmt := false, nilMapAsEmpty := false,
    nilSliceAsEmpty := false, nilByteSliceAsEmpty := false,
    omitZeroStruct := false, useJSONStructTags := false, omitEmpty := false }

/-- Encode context with only the configuration-level omit-empty flag. -/
def ecOmitEmpty : EncodeContext :=
  { minSize := false, errorOnInlineDuplicates := false,
    stringifyMapKeysWithFmt := false, nilMapAsEmpty := false,
    nilSliceAsEmpty := false, nilByteSliceAsEmpty := false,
    omitZeroStruct := false, useJSONStructTags := false, omitEmpty := true }

/-- An encoder that writes an opaque payload. -/
def encNop : Enc := fun _ _ => .ok (.payload "v")

end BEnc

namespace CacheM

/-! Model of the per-codec descriptor cache (`sc.cache`, a
`sync.Map map[reflect.Type]*structDescription`) and of `describeStruct`
(struct_codec.go lines 447-468).  Types are identified by an opaque key;
`sync.Map.Load` and `LoadOrStore` are modelled as atomic operations on the
cache state, which is how `sync.Map` linearises them. -/

/-- The cache state: published descriptors per type key. -/
abbrev Cache := List (Nat × Desc.structDescription)

/-- `sync.Map.Load`. -/
def load (c : Cache) (t : Nat) : Option Desc.structDescription :=
  ((c.find? (fun p => p.1 == t)).map (fun p => p.2))

/-- `sync.Map.LoadOrStore`: return the existing value when one is
published (leaving the state unchanged), otherwise publish and return the
given value. -/
def loadOrStore (c : Cache) (t : Nat) (d : Desc.structDescription) :
    Desc.structDescription × Cache :=
  match load c t with
  | some existing => (existing, c)
  | none => (d, c ++ [(t, d)])

/-- Embeds `describeStruct` (struct_codec.go lines 447-468): consult the
cache first; otherwise run the slow path and publish via `LoadOrStore`,
adopting the already-published instance when another caller won the race.
Returns the descriptor the caller observes together with the cache
state after the call. -/
def describeStruct (c : Cache) (t : Nat)
    (slow : Nat → Except Desc.DescError Desc.structDescription) :
    Except Desc.DescError (Desc.structDescription × Cache) :=
  match load c t with
  | some d => .ok (d, c)
  | none =>
    match slow t with
    | .error e => .error e
    | .ok ds =>
      let r := loadOrStore c t ds
      .ok (r.1, r.2)

/-- An `EncodeValue` or `DecodeValue` call as seen by the cache: resolve
the descriptor via `describeStruct`, then run the traversal — a pure
function of the observed descriptor (the traversals are modelled in
namespaces `BEnc` and `BDec`; their per-iteration field-description
copies never reach the cache). -/
def callWithDescriptor {α : Type} (c : Cache) (t : Nat)
    (slow : Nat → Except Desc.DescError Desc.structDescription)
    (run : Desc.structDescription → α) : Except Desc.DescError (α × Cache) :=
  match describeStruct c t slow with
  | .error e => .error e
  | .ok (d, c2) => .ok (run d, c2)

end CacheM

/-!
Theorems.  Each claim of the specification is settled by exactly one
theorem below (plus, where required, a closed counterexample and a
closed witness instantiating the hypotheses).
-/

/-- C3: the claim states that `deepZero` returns, without failing, a zero
instance in which every nested pointer-to-struct field is pre-allocated
(non-nil) and recursively zeroed.  Evaluating the embedded code refutes
both parts: on `struct { P *struct{ X int } }` it succeeds but leaves the
pointer field nil (third conjunct: the result differs from the value the
claim requires), and on `struct { S struct{ X int } }` it panics in
`reflect.Type.Elem`, so the `decodeDeepZeroInline` pre-pass of
`DecodeValue` cannot guarantee addressable nested inline pointers. -/
theorem claim_C3 :
    DZ.deepZero DZ.ptrFieldStruct = .ok (.vStruct [.vNil]) ∧
    DZ.deepZero DZ.structFieldStruct = .error "reflect: Elem of invalid type" ∧
    (DZ.GVal.vStruct [.vNil]) ≠ .vStruct [.vPtrTo (.vStruct [.vInt 0])] := by
  refine ⟨rfl, rfl, ?_⟩
  simp

/-- C4: `DecodeValue` applied to a source whose top-level value is null or
undefined consumes that value, resets the settable struct destination to
the zero value of its type, and returns success — for every codec
configuration, registry, context, descriptor, and prior destination
contents; in these branches no document element is ever read (they return
before the element loop). -/
theorem claim_C4 (sc : structCodec) (reg : BDec.Registry) (dc : BDec.DecodeContext)
    (sd : BDec.structDescription) (val : BDec.DValue)
    (h : BDec.isStructKind val = true) :
    BDec.DecodeValue sc reg dc sd .null true val = .ok (BDec.zeroLike val) ∧
    BDec.DecodeValue sc reg dc sd .undefined true val = .ok (BDec.zeroLike val) := by
  unfold BDec.DecodeValue
  simp [h]

/-- C4 witness: the theorem applied to a concrete populated destination
(an int field holding 3 and a non-nil pointer field), for the null source:
both fields are reset to zero. -/
theorem claim_C4_witness :
    BDec.DecodeValue BDec.scDefault BDec.regC2 BDec.dcDefault BDec.sdC2 .null true
        (.vStruct 0 [.vInt 3, .vPtr .tInt (some (.vInt 5))]) =
      .ok (.vStruct 0 [.vInt 0, .vPtr .tInt none]) := by
  rw [(claim_C4 BDec.scDefault BDec.regC2 BDec.dcDefault BDec.sdC2
    (.vStruct 0 [.vInt 3, .vPtr .tInt (some (.vInt 5))]) rfl).1]
  simp [BDec.zeroLike, BDec.zeroLikeList]

/-- C2: the claim states that during one `DecodeValue` call every
unmatched document element is decoded with the inline-map element decoder
resolved once before the loop.  The code stores that decoder in the
function-scoped `decoder` variable, but the interface-pointer special
case reassigns the same variable (line 323 uses `=` where a fresh `:=`
binding is needed), so an unmatched element that arrives after such a
field is decoded with the clobbered decoder.  Decoding
`{f: 5, extra: 7}` into `struct { F any; M map[string]string "inline" }`
(with `F` holding a pointer to an int) stores the int decoder result
`vInt 7` under "extra", while the pre-resolved string element decoder
(second conjunct) would have produced `vString "int:7"` — a different
value (third conjunct). -/
theorem getField_setField : ∀ {val old : BDec.DValue} {i : Nat} (x : BDec.DValue),
    BDec.getField val i = some old →
    BDec.getField (BDec.setField val i x) i = some x := by
  intro val old i x h
  cases val
  case vStruct tid fields =>
    simp only [BDec.getField, BDec.setField] at h ⊢
    rw [List.get?_set_eq, h]
    rfl
  all_goals simp [BDec.getField] at h

/-- C10: a failure while decoding an unmatched document element into the
inline map is returned to the caller unchanged — not wrapped in a
DecodeError, so the element name joins no accumulated key path — whereas
a failure while decoding an element matched to a descriptor field is
wrapped with that field document name.  Stated over one iteration of the
element loop, whatever the state it is reached in. -/
theorem claim_C10 (reg : BDec.Registry) (dc : BDec.DecodeContext)
    (sd : BDec.structDescription) (val : BDec.DValue) (dvar : Option BDec.Dec)
    (name : String) (vr : BDec.BsonValue) (e : BDec.GoError) :
    (∀ im ety contents d,
      BDec.fmLookup sd.fm name = none →
      BDec.fmLookup sd.fm (BDec.toLowerName name) = none →
      sd.inlineMap = some im →
      BDec.getField val im = some (.vMap ety contents) →
      dvar = some d →
      d dc vr (BDec.zeroOfTy ety) = .error e →
      BDec.decodeElem reg dc sd (val, dvar) name vr = .error e) ∧
    (∀ fd f d,
      BDec.fmLookup sd.fm name = some fd →
      fd.inline = none →
      BDec.getField val fd.idx = some f →
      BDec.isIfacePtrShape f = false →
      (∀ t, f ≠ .vPtr t none) →
      fd.decoder = some d →
      d (BDec.childContext fd dc) vr f = .error e →
      BDec.decodeElem reg dc sd (val, dvar) name vr =
        .error (BDec.newDecodeError fd.name e)) := by
  constructor
  · intro im ety contents d h1 h2 h3 h4 h5 h6
    subst h5
    unfold BDec.decodeElem
    cases contents with
    | none =>
      simp only [h1, h2, h3, h4,
        getField_setField (BDec.DValue.vMap ety (some [])) h4, h6]
    | some cs =>
      simp only [h1, h2, h3, h4, h6]
  · intro fd f d h1 h2 h3 h4 h5 h6 h7
    unfold BDec.decodeElem
    cases f
    case vIface inner =>
      cases inner with
      | none => simp only [h1, h2, h3, h6, h7]
      | some x =>
        cases x
        case vPtr pt p =>
          cases p with
          | none => simp only [h1, h2, h3, h6, h7]
          | some pv => simp [BDec.isIfacePtrShape] at h4
        all_goals simp only [h1, h2, h3, h6, h7]
    case vPtr t p =>
      cases p with
      | none => exact absurd rfl (h5 t)
      | some pv => simp only [h1, h2, h3, h6, h7]
    all_goals simp only [h1, h2, h3, h6, h7]

/-- C10 witness: one loop iteration on a descriptor with an inline map and
no named fields; the element decoder failure `boom` is returned as is. -/
theorem claim_C10_witness :
    BDec.decodeElem BDec.regC2 BDec.dcDefault
        { fm := [], inlineMap := some 0, inline := false }
        (.vStruct 0 [.vMap .tString (some [])], some (BDec.failDec (.plain "boom")))
        "x" .null =
      .error (.plain "boom") :=
  (claim_C10 BDec.regC2 BDec.dcDefault
      { fm := [], inlineMap := some 0, inline := false }
      (.vStruct 0 [.vMap .tString (some [])])
      (some (BDec.failDec (.plain "boom"))) "x" .null (.plain "boom")).1
    0 .tString (some []) (BDec.failDec (.plain "boom")) rfl rfl rfl rfl rfl rfl

/-- C8: when the element-encoder lookup reports that a field holds no
concrete value (a nil interface), `EncodeValue` skips the field if it is
treated as omitEmpty — by its own tag or by the configuration-level flag —
and otherwise writes an element under the field document name with an
explicit null value; in neither case does the condition itself make
encoding fail: the loop continues with the remaining fields either way. -/
theorem claim_C8 (sc : structCodec) (reg : BEnc.eRegistry) (ec : BEnc.EncodeContext)
    (val : BEnc.RValue) (desc : BEnc.fieldDescription)
    (rest : List BEnc.fieldDescription)
    (hdirect : desc.inline = none)
    (hrv : BEnc.getFieldR val desc.idx = some (.iface none)) :
    ((desc.omitEmpty = true ∨ ec.omitEmpty = true) →
      BEnc.encodeFields sc reg ec val (desc :: rest) =
        BEnc.encodeFields sc reg ec val rest) ∧
    (desc.omitEmpty = false → ec.omitEmpty = false →
      BEnc.encodeFields sc reg ec val (desc :: rest) =
        (BEnc.encodeFields sc reg ec val rest).map
          (fun elems => (desc.name, BEnc.WrittenValue.nullValue) :: elems)) := by
  constructor
  · intro homit
    conv_lhs => rw [BEnc.encodeFields]
    rcases homit with h | h <;>
      cases hec : ec.omitEmpty <;>
        simp_all [BEnc.lookupElementEncoder]
  · intro h1 h2
    conv_lhs => rw [BEnc.encodeFields]
    simp_all [BEnc.lookupElementEncoder]

/-- C9: when the configuration-level omit-empty option is set,
`EncodeValue` treats every field as omitEmpty regardless of the field
tag: a field holding no concrete value is skipped, a non-interface field
whose value is empty under the emptiness test is skipped, and an
interface field holding a concrete value is skipped when the unwrapped
concrete value is empty; in each case the loop continues with the
remaining fields. -/
theorem claim_C9 (sc : structCodec) (reg : BEnc.eRegistry) (ec : BEnc.EncodeContext)
    (val : BEnc.RValue) (desc : BEnc.fieldDescription)
    (rest : List BEnc.fieldDescription)
    (homit : ec.omitEmpty = true) (hdirect : desc.inline = none) :
    (BEnc.getFieldR val desc.idx = some (.iface none) →
      BEnc.encodeFields sc reg ec val (desc :: rest) =
        BEnc.encodeFields sc reg ec val rest) ∧
    (∀ rv enc2, BEnc.getFieldR val desc.idx = some rv →
      BEnc.isIfaceKind rv = false →
      desc.encoder = some enc2 →
      BEnc.isEmpty rv (sc.encodeOmitDefaultStruct || ec.omitZeroStruct) = true →
      BEnc.encodeFields sc reg ec val (desc :: rest) =
        BEnc.encodeFields sc reg ec val rest) ∧
    (∀ inner enc2, BEnc.getFieldR val desc.idx = some (.iface (some inner)) →
      reg inner = some enc2 →
      BEnc.isIfaceKind inner = false →
      BEnc.isEmpty inner (sc.encodeOmitDefaultStruct || ec.omitZeroStruct) = true →
      BEnc.encodeFields sc reg ec val (desc :: rest) =
        BEnc.encodeFields sc reg ec val rest) := by
  refine ⟨?_, ?_, ?_⟩
  · intro hrv
    conv_lhs => rw [BEnc.encodeFields]
    simp_all [BEnc.lookupElementEncoder]
  · intro rv enc2 hrv hkind henc hempty
    conv_lhs => rw [BEnc.encodeFields]
    cases rv <;> simp_all [BEnc.lookupElementEncoder, BEnc.isIfaceKind]
  · intro inner enc2 hrv hreg hkind hempty
    conv_lhs => rw [BEnc.encodeFields]
    cases inner <;> simp_all [BEnc.lookupElementEncoder, BEnc.isIfaceKind]

/-- C8 witness: a single nil-interface field not treated as omitEmpty
produces exactly one explicit null element under its name. -/
theorem claim_C8_witness :
    BEnc.encodeFields BDec.scDefault (fun _ => none) BEnc.ecOff
        (.strct false false (.fcons false false (.iface none) .fnil) none)
        [{ name := "x", idx := 0, inline := none, omitEmpty := false,
           minSize := false, encoder := none }] =
      .ok [("x", BEnc.WrittenValue.nullValue)] := by
  rw [(claim_C8 BDec.scDefault (fun _ => none) BEnc.ecOff
      (.strct false false (.fcons false false (.iface none) .fnil) none)
      { name := "x", idx := 0, inline := none, omitEmpty := false,
        minSize := false, encoder := none } [] rfl rfl).2 rfl rfl]
  rfl

/-- C9 witness: under the configuration-level omit-empty flag, a zero
scalar field without its own omitEmpty tag is skipped. -/
theorem claim_C9_witness :
    BEnc.encodeFields BDec.scDefault (fun _ => none) BEnc.ecOmitEmpty
        (.strct false false (.fcons false false (.scalar true none) .fnil) none)
        [{ name := "x", idx := 0, inline := none, omitEmpty := false,
           minSize := false, encoder := some BEnc.encNop }] =
      .ok [] := by
  rw [(claim_C9 BDec.scDefault (fun _ => none) BEnc.ecOmitEmpty
      (.strct false false (.fcons false false (.scalar true none) .fnil) none)
      { name := "x", idx := 0, inline := none, omitEmpty := false,
        minSize := false, encoder := some BEnc.encNop } [] rfl rfl).2.1
    (.scalar true none) BEnc.encNop rfl rfl rfl rfl]
  rfl

mutual
theorem isEmpty_eq_spec (v : BEnc.RValue) (o : Bool) :
    BEnc.isEmpty v o = BEnc.emptySpec v o := by
  cases v with
  | invalid => rfl
  | scalar z zr => cases zr <;> rfl
  | coll len zr => cases zr <;> rfl
  | iface i => rfl
  | ptr p zr => cases zr <;> cases p <;> rfl
  | strct isT tz fs zr =>
    cases zr with
    | some b => rfl
    | none =>
      unfold BEnc.isEmpty BEnc.emptySpec
      simp [BEnc.zeroerOf, BEnc.isPtrKind, BEnc.ptrIsNil, isEmptyFields_eq_spec fs o]
theorem isEmptyFields_eq_spec (fs : BEnc.RFields) (o : Bool) :
    BEnc.isEmptyFields fs o = BEnc.emptySpecFields fs o := by
  cases fs with
  | fnil => rfl
  | fcons u a v rest =>
    unfold BEnc.isEmptyFields BEnc.emptySpecFields
    cases u <;> cases a <;>
      simp [isEmpty_eq_spec v o, isEmptyFields_eq_spec rest o]
end

/-- C7 (amended): the emptiness test evaluates in exactly the claimed
precedence with two corrections forced by the code: a nil pointer skips
the self-zero-reporting capability and falls through to the generic zero
test (hence is empty), and the recursive struct clause consults every
field that is exported or anonymous (not only exported fields).
`emptySpec` states that precedence in the words of the amended claim, and
the embedded `isEmpty` agrees with it on every value and mode. -/
theorem claim_C7 : ∀ (v : BEnc.RValue) (aggressiveZero : Bool),
    BEnc.isEmpty v aggressiveZero = BEnc.emptySpec v aggressiveZero :=
  fun v o => isEmpty_eq_spec v o

/-- C7 counterexample: a nil pointer of a type exposing the capability
whose answer would be `false` — the claim as stated says the test defers
to the capability (so not empty), but `isEmpty` skips the capability for a
nil pointer and reports empty. -/
theorem claim_C7_counterexample :
    BEnc.zeroerOf BEnc.nilPtrZeroer = some false ∧
    BEnc.isEmpty BEnc.nilPtrZeroer true = true ∧
    BEnc.emptyClaimed BEnc.nilPtrZeroer true = false :=
  ⟨rfl, rfl, rfl⟩

theorem load_append_self (c : CacheM.Cache) (t : Nat) (d : Desc.structDescription)
    (h : CacheM.load c t = none) :
    CacheM.load (c ++ [(t, d)]) t = some d := by
  have hf : c.find? (fun p => p.1 == t) = none := by
    unfold CacheM.load at h
    exact Option.map_eq_none'.mp h
  unfold CacheM.load
  rw [List.find?_append, hf]
  simp [List.find?_cons]

/-- C6: a descriptor published to the per-codec cache is the one every
later call observes, and nothing a traversal does changes it.  First
conjunct: with a descriptor published for a type, `describeStruct`
returns exactly that instance and leaves the cache unchanged, whatever
the slow path would compute.  Second conjunct: two callers racing to
publish for a previously-unseen type (the `LoadOrStore` protocol run in
either order) both observe the single first-published instance, and the
cache retains it.  Third conjunct: a whole encode or decode call around
`describeStruct` — whose traversal is a pure function of the observed
descriptor; the encode loop re-binds only its per-iteration copy of a
field description (`BEnc.encodeFields`) — returns a result of the
published instance and leaves the cache unchanged. -/
theorem claim_C6 (t : Nat)
    (slow : Nat → Except Desc.DescError Desc.structDescription) :
    (∀ c d, CacheM.load c t = some d →
      CacheM.describeStruct c t slow = .ok (d, c)) ∧
    (∀ c ds1 ds2, CacheM.load c t = none →
      (CacheM.loadOrStore c t ds1).1 = ds1 ∧
      (CacheM.loadOrStore (CacheM.loadOrStore c t ds1).2 t ds2).1 = ds1 ∧
      (CacheM.loadOrStore (CacheM.loadOrStore c t ds1).2 t ds2).2 =
        (CacheM.loadOrStore c t ds1).2 ∧
      CacheM.load (CacheM.loadOrStore c t ds1).2 t = some ds1) ∧
    (∀ (α : Type) (c : CacheM.Cache) (d : Desc.structDescription)
        (run : Desc.structDescription → α), CacheM.load c t = some d →
      CacheM.callWithDescriptor c t slow run = .ok (run d, c)) := by
  refine ⟨?_, ?_, ?_⟩
  · intro c d h
    unfold CacheM.describeStruct
    rw [h]
  · intro c ds1 ds2 h
    have hstore : CacheM.loadOrStore c t ds1 = (ds1, c ++ [(t, ds1)]) := by
      unfold CacheM.loadOrStore
      rw [h]
    have hload2 : CacheM.load (c ++ [(t, ds1)]) t = some ds1 :=
      load_append_self c t ds1 h
    refine ⟨by rw [hstore], ?_, ?_, by rw [hstore]; exact hload2⟩
    · rw [hstore]
      unfold CacheM.loadOrStore
      rw [hload2]
    · rw [hstore]
      unfold CacheM.loadOrStore
      rw [hload2]
  · intro α c d run h
    unfold CacheM.callWithDescriptor CacheM.describeStruct
    rw [h]

/-- C6 witness: with a concrete descriptor published for type key 0, a
later describeStruct call observes exactly it and the cache is unchanged,
even though the slow path would fail. -/
theorem claim_C6_witness :
    CacheM.describeStruct [(0, { fm := [], fl := [], inlineMap := none, inline := false })] 0
        (fun _ => .error (.duplicatedKey "T" "a")) =
      .ok ({ fm := [], fl := [], inlineMap := none, inline := false },
        [(0, { fm := [], fl := [], inlineMap := none, inline := false })]) :=
  (claim_C6 0 (fun _ => .error (.duplicatedKey "T" "a"))).1
    [(0, { fm := [], fl := [], inlineMap := none, inline := false })]
    { fm := [], fl := [], inlineMap := none, inline := false } rfl

theorem decode_single_err (reg : BDec.Registry) (n : String) (d : BDec.Dec)
    (inner : BDec.DValue) (vr : BDec.BsonValue) (e : BDec.GoError)
    (hshape : BDec.isIfacePtrShape inner = false)
    (hptr : ∀ t, inner ≠ BDec.DValue.vPtr t none)
    (hd : d BDec.dcDefault vr inner = .error e) :
    BDec.DecodeValue BDec.scDefault reg BDec.dcDefault (BDec.singleFieldSd n d)
      (.doc [(n, vr)]) true (.vStruct 0 [inner]) =
      .error (BDec.newDecodeError n e) := by
  unfold BDec.DecodeValue
  cases inner
  case vIface io =>
    cases io with
    | none =>
      simp_all [BDec.scDefault, BDec.dcDefault, BDec.isStructKind,
        BDec.singleFieldSd, BDec.fmLookup, BDec.decodeElems, BDec.decodeElem,
        BDec.getField, BDec.childContext, List.find?_cons]
    | some x =>
      cases x
      case vPtr pt p =>
        cases p with
        | none =>
          simp_all [BDec.scDefault, BDec.dcDefault, BDec.isStructKind,
            BDec.singleFieldSd, BDec.fmLookup, BDec.decodeElems, BDec.decodeElem,
            BDec.getField, BDec.childContext, List.find?_cons]
        | some pv => simp [BDec.isIfacePtrShape] at hshape
      all_goals
        simp_all [BDec.scDefault, BDec.dcDefault, BDec.isStructKind,
          BDec.singleFieldSd, BDec.fmLookup, BDec.decodeElems, BDec.decodeElem,
          BDec.getField, BDec.childContext, List.find?_cons]
  case vPtr t p =>
    cases p with
    | none => exact absurd rfl (hptr t)
    | some pv =>
      simp_all [BDec.scDefault, BDec.dcDefault, BDec.isStructKind,
        BDec.singleFieldSd, BDec.fmLookup, BDec.decodeElems, BDec.decodeElem,
        BDec.getField, BDec.childContext, List.find?_cons]
  all_goals
    simp_all [BDec.scDefault, BDec.dcDefault, BDec.isStructKind,
      BDec.singleFieldSd, BDec.fmLookup, BDec.decodeElems, BDec.decodeElem,
      BDec.getField, BDec.childContext, List.find?_cons]

theorem chain_error (reg : BDec.Registry) (m : String) :
    ∀ (ns : List String) (n : String),
      BDec.DecodeValue BDec.scDefault reg BDec.dcDefault
          (BDec.singleFieldSd n (BDec.chainDecoder reg ns (BDec.failDec (.plain m))))
          (.doc [(n, BDec.nestDoc ns (.int32 99))]) true
          (.vStruct 0 [BDec.nestDest ns]) =
        .error (.decodeError (ns.reverse ++ [n]) (.plain m)) := by
  intro ns
  induction ns with
  | nil =>
    intro n
    have step := decode_single_err reg n (BDec.failDec (.plain m)) (.vInt 0)
      (.int32 99) (.plain m) rfl (fun t h => by cases h) rfl
    simp only [BDec.chainDecoder, BDec.nestDoc, BDec.nestDest]
    rw [step]
    simp [BDec.newDecodeError]
  | cons r rs ih =>
    intro n
    have step := decode_single_err reg n
      (BDec.chainDecoder reg (r :: rs) (BDec.failDec (.plain m)))
      (.vStruct 0 [BDec.nestDest rs]) (.doc [(r, BDec.nestDoc rs (.int32 99))])
      (.decodeError (rs.reverse ++ [r]) (.plain m)) rfl (fun t h => by cases h)
      (ih r)
    simp only [BDec.nestDoc, BDec.nestDest]
    rw [step]
    simp [BDec.newDecodeError]

/-- C5: when decoding a document element matched to a struct field fails
at any nesting depth of struct-in-struct decoding, the error returned to
the caller is a DecodeError whose Keys() is the complete top-down path of
document field names from the outermost struct to the failing field, and
whose Unwrap() is the innermost cause.  Stated along an arbitrary
non-empty name chain `ns`: each level is the struct codec decoding a
single-field document, the innermost field decoder failing with the cause
`plain m`; decoding the nested document yields the DecodeError holding
the keys bottom-up, so Keys() reads exactly `ns` and Unwrap() the cause
(for `ns = [a, b, c]` this is the `{a: {b: {c: ...}}}` example of the
claim). -/
theorem claim_C5 (reg : BDec.Registry) (ns : List String) (m : String)
    (hne : ns ≠ []) :
    BDec.chainDecoder reg ns (BDec.failDec (.plain m)) BDec.dcDefault
        (BDec.nestDoc ns (.int32 99)) (BDec.nestDest ns) =
      .error (.decodeError ns.reverse (.plain m)) ∧
    BDec.decodeErrorKeys (.decodeError ns.reverse (.plain m)) = some ns ∧
    BDec.decodeErrorUnwrap (.decodeError ns.reverse (.plain m)) =
      some (.plain m) := by
  refine ⟨?_, by simp [BDec.decodeErrorKeys], rfl⟩
  cases ns with
  | nil => exact absurd rfl hne
  | cons n rest =>
    have h := chain_error reg m rest n
    simp only [BDec.chainDecoder, BDec.nestDoc, BDec.nestDest, List.reverse_cons]
    exact h

/-- C5 witness: decoding `{a: {b: {c: 99}}}` where the decoder for `c`
fails with cause "oops" yields a DecodeError whose Keys() is
`["a", "b", "c"]` and whose Unwrap() is the cause. -/
theorem claim_C5_witness :
    BDec.chainDecoder BDec.regC2 ["a", "b", "c"] (BDec.failDec (.plain "oops"))
        BDec.dcDefault (BDec.nestDoc ["a", "b", "c"] (.int32 99))
        (BDec.nestDest ["a", "b", "c"]) =
      .error (.decodeError ["c", "b", "a"] (.plain "oops")) ∧
    BDec.decodeErrorKeys (.decodeError ["c", "b", "a"] (.plain "oops")) =
      some ["a", "b", "c"] ∧
    BDec.decodeErrorUnwrap (.decodeError ["c", "b", "a"] (.plain "oops")) =
      some (.plain "oops") := by
  have h := claim_C5 BDec.regC2 ["a", "b", "c"] "oops" (by simp)
  simpa using h

theorem takeWhile_all {α : Type} {p : α → Bool} :
    ∀ {l : List α}, (∀ a ∈ l, p a = true) → l.takeWhile p = l := by
  intro l
  induction l with
  | nil => intro _; rfl
  | cons a t ih =>
    intro h
    simp [List.takeWhile_cons, h a (List.mem_cons_self a t),
      ih (fun b hb => h b (List.mem_cons_of_mem a hb))]

theorem dropWhile_all {α : Type} {p : α → Bool} :
    ∀ {l : List α}, (∀ a ∈ l, p a = true) → l.dropWhile p = [] := by
  intro l
  induction l with
  | nil => intro _; rfl
  | cons a t ih =>
    intro h
    simp [List.dropWhile_cons, h a (List.mem_cons_self a t),
      ih (fun b hb => h b (List.mem_cons_of_mem a hb))]

theorem insertField_perm (x : Desc.fieldDescription) :
    ∀ l : List Desc.fieldDescription, List.Perm (Desc.insertField x l) (x :: l) := by
  intro l
  induction l with
  | nil => exact List.Perm.refl _
  | cons y ys ih =>
    unfold Desc.insertField
    by_cases h : Desc.fieldsLess y x = true
    · simp only [h, if_true]
      exact (List.Perm.cons y ih).trans (List.Perm.swap x y ys)
    · simp only [h, if_false]
      exact List.Perm.refl _

theorem sortFields_perm :
    ∀ l : List Desc.fieldDescription, List.Perm (Desc.sortFields l) l := by
  intro l
  induction l with
  | nil => exact List.Perm.refl _
  | cons x xs ih =>
    exact (insertField_perm x (Desc.sortFields xs)).trans (List.Perm.cons x ih)

theorem fieldsLess_depth_le {y x : Desc.fieldDescription} (hn : y.name = x.name)
    (h : Desc.fieldsLess y x = true) : Desc.inlineLen y ≤ Desc.inlineLen x := by
  unfold Desc.fieldsLess at h
  rw [if_neg (by simp [hn])] at h
  by_cases hl : Desc.inlineLen y = Desc.inlineLen x
  · exact le_of_eq hl
  · rw [if_pos hl] at h
    exact le_of_lt (of_decide_eq_true h)

theorem not_fieldsLess_depth_le {y x : Desc.fieldDescription} (hn : y.name = x.name)
    (h : Desc.fieldsLess y x = false) : Desc.inlineLen x ≤ Desc.inlineLen y := by
  unfold Desc.fieldsLess at h
  rw [if_neg (by simp [hn])] at h
  by_cases hl : Desc.inlineLen y = Desc.inlineLen x
  · exact le_of_eq hl.symm
  · rw [if_pos hl] at h
    have h2 := of_decide_eq_false h
    omega

theorem sorted_insertField {n : String} {x : Desc.fieldDescription}
    {l : List Desc.fieldDescription}
    (hx : x.name = n) (hl : ∀ f ∈ l, f.name = n)
    (hs : List.Sorted (fun a b => Desc.inlineLen a ≤ Desc.inlineLen b) l) :
    List.Sorted (fun a b => Desc.inlineLen a ≤ Desc.inlineLen b)
      (Desc.insertField x l) := by
  induction l with
  | nil => simp [Desc.insertField]
  | cons y ys ih =>
    rcases List.sorted_cons.mp hs with ⟨hy, hys⟩
    have hyname : y.name = n := hl y (List.mem_cons_self y ys)
    unfold Desc.insertField
    by_cases h : Desc.fieldsLess y x = true
    · simp only [h, if_true]
      apply List.sorted_cons.mpr
      refine ⟨?_, ih (fun f hf => hl f (List.mem_cons_of_mem y hf)) hys⟩
      intro b hb
      rcases List.mem_cons.mp (((insertField_perm x ys).mem_iff).mp hb) with hb | hb
      · subst hb
        exact fieldsLess_depth_le (hyname.trans hx.symm) h
      · exact hy b hb
    · have h2 : Desc.fieldsLess y x = false := by
        cases h3 : Desc.fieldsLess y x
        · rfl
        · exact absurd h3 h
      simp only [h, if_false]
      apply List.sorted_cons.mpr
      refine ⟨?_, hs⟩
      intro b hb
      rcases List.mem_cons.mp hb with hb | hb
      · subst hb
        exact not_fieldsLess_depth_le (hyname.trans hx.symm) h2
      · exact le_trans (not_fieldsLess_depth_le (hyname.trans hx.symm) h2) (hy b hb)

theorem sorted_sortFields {n : String} :
    ∀ {l : List Desc.fieldDescription}, (∀ f ∈ l, f.name = n) →
      List.Sorted (fun a b => Desc.inlineLen a ≤ Desc.inlineLen b)
        (Desc.sortFields l) := by
  intro l
  induction l with
  | nil => intro _; simp [Desc.sortFields]
  | cons x xs ih =>
    intro h
    unfold Desc.sortFields
    exact sorted_insertField (h x (List.mem_cons_self x xs))
      (fun f hf => h f (List.mem_cons_of_mem x
        ((sortFields_perm xs).mem_iff.mp hf)))
      (ih (fun f hf => h f (List.mem_cons_of_mem x hf)))

theorem resolveDominance_tie (tname : String) (ow eod : Bool)
    (s0 s1 : Desc.fieldDescription) (srest : List Desc.fieldDescription)
    (hn : ∀ f ∈ s1 :: srest, f.name = s0.name)
    (heq : Desc.inlineLen s0 = Desc.inlineLen s1) :
    Desc.resolveDominance tname ow eod (s0 :: s1 :: srest) =
      .error (.duplicatedKey tname s0.name) := by
  have htw : (s1 :: srest).takeWhile (fun fj => fj.name == s0.name) = s1 :: srest :=
    takeWhile_all (fun f hf => beq_iff_eq.mpr (hn f hf))
  unfold Desc.resolveDominance
  simp [htw, Desc.dominantField, heq]

theorem resolveDominance_dominant (tname : String) (ow eod : Bool)
    (s0 s1 : Desc.fieldDescription) (srest : List Desc.fieldDescription)
    (hn : ∀ f ∈ s1 :: srest, f.name = s0.name)
    (hne : Desc.inlineLen s0 ≠ Desc.inlineLen s1) :
    Desc.resolveDominance tname ow eod (s0 :: s1 :: srest) =
      if !ow || eod then .error (.duplicatedKey tname s0.name)
      else .ok ([s0], [(s0.name, s0)]) := by
  have htw : (s1 :: srest).takeWhile (fun fj => fj.name == s0.name) = s1 :: srest :=
    takeWhile_all (fun f hf => beq_iff_eq.mpr (hn f hf))
  have hdw : (s1 :: srest).dropWhile (fun fj => fj.name == s0.name) = [] :=
    dropWhile_all (fun f hf => beq_iff_eq.mpr (hn f hf))
  unfold Desc.resolveDominance
  simp only [htw, hdw]
  simp [Desc.dominantField, hne, Desc.resolveDominance, Except.map]

/-- C1 (amended): over a flattened field list whose entries all resolve to
the same document name `n` (the colliding group the claim quantifies),
with at least two entries: if two or more of them tie at the shortest
inline depth, descriptor construction fails with the duplicate-key error
under every policy setting; if exactly one entry (occurring once) is
strictly shallower than all the others, construction succeeds exactly
when duplicate overwriting is enabled (`overwriteDuplicatedInlinedFields`,
the default) and strict duplicate errors were not requested
(`errorOnDuplicates` false, as on the decode path), keeping the shallower
field as the only entry of `fieldsByName` and `fieldsOrdered`; under any
other policy setting construction fails with the same duplicate-key error
— the amendment the code forces on the claim, which asserted
unconditional success for the dominant case. -/
theorem claim_C1 (n tname : String) (fields : List Desc.fieldDescription)
    (overwrite errorOnDuplicates : Bool) (imi : Option Nat) (ifl : Bool)
    (hall : ∀ f ∈ fields, f.name = n) (hlen : 2 ≤ fields.length) :
    ((∃ d, 2 ≤ (fields.filter (fun f => Desc.inlineLen f == d)).length ∧
        ∀ f ∈ fields, d ≤ Desc.inlineLen f) →
      Desc.describeStructSlowFrom tname overwrite errorOnDuplicates imi ifl fields =
        .error (.duplicatedKey tname n)) ∧
    (∀ f0, f0 ∈ fields → fields.count f0 = 1 →
      (∀ g ∈ fields, g ≠ f0 → Desc.inlineLen f0 < Desc.inlineLen g) →
      (overwrite = true → errorOnDuplicates = false →
        Desc.describeStructSlowFrom tname overwrite errorOnDuplicates imi ifl fields =
          .ok { fm := [(n, f0)], fl := [f0], inlineMap := imi, inline := ifl }) ∧
      ((overwrite = false ∨ errorOnDuplicates = true) →
        Desc.describeStructSlowFrom tname overwrite errorOnDuplicates imi ifl fields =
          .error (.duplicatedKey tname n))) := by
  have hperm := sortFields_perm fields
  have hnamesS : ∀ f ∈ Desc.sortFields fields, f.name = n :=
    fun f hf => hall f (hperm.mem_iff.mp hf)
  have hsorted := sorted_sortFields (n := n) hall
  have hlenS : 2 ≤ (Desc.sortFields fields).length := by
    rw [hperm.length_eq]; exact hlen
  obtain ⟨s0, rest0, h0⟩ : ∃ a l, Desc.sortFields fields = a :: l := by
    cases hh : Desc.sortFields fields with
    | nil => rw [hh] at hlenS; simp at hlenS
    | cons a l => exact ⟨a, l, rfl⟩
  obtain ⟨s1, srest, h1⟩ : ∃ a l, rest0 = a :: l := by
    cases hh : rest0 with
    | nil => rw [hh] at h0; rw [h0] at hlenS; simp at hlenS
    | cons a l => exact ⟨a, l, rfl⟩
  rw [h1] at h0
  have hs0mem : s0 ∈ fields :=
    hperm.mem_iff.mp (by rw [h0]; exact List.mem_cons_self _ _)
  have hs1mem : s1 ∈ fields :=
    hperm.mem_iff.mp
      (by rw [h0]; exact List.mem_cons_of_mem _ (List.mem_cons_self _ _))
  have hs0name : s0.name = n := hall s0 hs0mem
  have hnTail : ∀ f ∈ s1 :: srest, f.name = s0.name := by
    intro f hf
    rw [hs0name]
    exact hnamesS f (by rw [h0]; exact List.mem_cons_of_mem _ hf)
  have hsortedS :
      List.Sorted (fun a b => Desc.inlineLen a ≤ Desc.inlineLen b)
        (s0 :: s1 :: srest) := by
    rw [← h0]; exact hsorted
  rcases List.sorted_cons.mp hsortedS with ⟨hs0le, hsorted1⟩
  rcases List.sorted_cons.mp hsorted1 with ⟨hs1le, _⟩
  constructor
  · rintro ⟨d, hc, hmin⟩
    have hcS :
        2 ≤ ((s0 :: s1 :: srest).filter (fun f => Desc.inlineLen f == d)).length := by
      rw [← h0, (hperm.filter _).length_eq]
      exact hc
    have htail :
        1 ≤ ((s1 :: srest).filter (fun f => Desc.inlineLen f == d)).length := by
      rw [List.filter_cons] at hcS
      by_cases h : (Desc.inlineLen s0 == d) = true
      · rw [if_pos h] at hcS
        simp only [List.length_cons] at hcS
        omega
      · rw [if_neg h] at hcS
        omega
    obtain ⟨x, hxmem, hxd⟩ :
        ∃ x ∈ s1 :: srest, (Desc.inlineLen x == d) = true := by
      have hne : ((s1 :: srest).filter (fun f => Desc.inlineLen f == d)) ≠ [] := by
        intro hnil
        rw [hnil] at htail
        simp at htail
      obtain ⟨x, hx⟩ := List.exists_mem_of_ne_nil _ hne
      rcases List.mem_filter.mp hx with ⟨hxm, hxd⟩
      exact ⟨x, hxm, hxd⟩
    have hxdeq : Desc.inlineLen x = d := beq_iff_eq.mp hxd
    have hs1x : Desc.inlineLen s1 ≤ Desc.inlineLen x := by
      rcases List.mem_cons.mp hxmem with h | h
      · rw [h]
      · exact hs1le x h
    have hds1 : d ≤ Desc.inlineLen s1 := hmin s1 hs1mem
    have hd0 : d ≤ Desc.inlineLen s0 := hmin s0 hs0mem
    have h01 : Desc.inlineLen s0 ≤ Desc.inlineLen s1 :=
      hs0le s1 (List.mem_cons_self _ _)
    have heq : Desc.inlineLen s0 = Desc.inlineLen s1 := by omega
    unfold Desc.describeStructSlowFrom
    rw [h0, resolveDominance_tie tname overwrite errorOnDuplicates s0 s1 srest
      hnTail heq]
    simp [Except.map, hs0name]
  · intro f0 hf0 hcount hlt
    have hs0 : s0 = f0 := by
      by_contra hne
      have hf0S : f0 ∈ s0 :: s1 :: srest := by
        rw [← h0]; exact hperm.mem_iff.mpr hf0
      have hf0tail : f0 ∈ s1 :: srest := by
        rcases List.mem_cons.mp hf0S with h | h
        · exact absurd h.symm hne
        · exact h
      have h1le : Desc.inlineLen s0 ≤ Desc.inlineLen f0 := hs0le f0 hf0tail
      have h2lt : Desc.inlineLen f0 < Desc.inlineLen s0 := hlt s0 hs0mem hne
      omega
    subst hs0
    have hcountS : List.count s0 (s0 :: s1 :: srest) = 1 := by
      rw [← h0, hperm.count_eq]
      exact hcount
    have hs1ne : s1 ≠ s0 := by
      intro hsame
      rw [List.count_cons_self] at hcountS
      have hzero : List.count s0 (s1 :: srest) = 0 := by omega
      have hnotmem : s0 ∉ s1 :: srest := List.count_eq_zero.mp hzero
      rw [hsame] at hnotmem
      exact hnotmem (List.mem_cons_self _ _)
    have hne01 : Desc.inlineLen s0 ≠ Desc.inlineLen s1 := by
      have := hlt s1 hs1mem hs1ne
      omega
    constructor
    · intro how heod
      subst how
      subst heod
      unfold Desc.describeStructSlowFrom
      rw [h0, resolveDominance_dominant tname true false s0 s1 srest hnTail hne01]
      simp [Except.map, hs0name, Desc.sortByIndex, Desc.insertByIndex]
    · intro hflag
      unfold Desc.describeStructSlowFrom
      rw [h0, resolveDominance_dominant tname overwrite errorOnDuplicates s0 s1
        srest hnTail hne01]
      have hcond : (!overwrite || errorOnDuplicates) = true := by
        rcases hflag with h | h <;> simp [h]
      rw [hcond]
      simp [Except.map, hs0name]

/-- C1 counterexample: two same-named fields at strictly different inline
depths (0 and 2) — the claim as frozen says descriptor construction
succeeds and keeps the shallower one, but with `errorOnDuplicates`
requested (as `EncodeValue` does whenever the encoder config sets it)
construction fails with the duplicate-key error even though the dominant
field is strictly shallower. -/
theorem claim_C1_counterexample :
    Desc.inlineLen Desc.fShallow < Desc.inlineLen Desc.fDeep ∧
    Desc.describeStructSlowFrom "T" true true none false
        [Desc.fShallow, Desc.fDeep] =
      .error (.duplicatedKey "T" "a") := by
  constructor
  · decide
  · unfold Desc.describeStructSlowFrom
    have hsort : Desc.sortFields [Desc.fShallow, Desc.fDeep] =
        [Desc.fShallow, Desc.fDeep] := by decide
    rw [hsort, resolveDominance_dominant "T" true true Desc.fShallow Desc.fDeep []
      (by decide) (by decide)]
    simp [Except.map, Desc.fShallow]

/-- C1 witness: the same two fields under the default policy (duplicate
overwriting on, strict duplicate errors off): construction succeeds, the
shallower field is the single entry of both `fm` and `fl`, and the deeper
field is absent from both. -/
theorem claim_C1_witness :
    Desc.describeStructSlowFrom "T" true false none false
        [Desc.fShallow, Desc.fDeep] =
      .ok { fm := [("a", Desc.fShallow)], fl := [Desc.fShallow],
            inlineMap := none, inline := false } :=
  ((claim_C1 "a" "T" [Desc.fShallow, Desc.fDeep] true false none false
      (by decide) (by decide)).2 Desc.fShallow (by decide) (by decide)
      (by decide)).1 rfl rfl

theorem claim_C2 :
    BDec.DecodeValue BDec.scDefault BDec.regC2 BDec.dcDefault BDec.sdC2
        (.doc BDec.docC2) true BDec.destC2 =
      .ok (.vStruct 0 [.vIface (some (.vPtr .tInt (some (.vInt 5)))),
        .vMap .tString (some [("extra", .vInt 7)])]) ∧
    BDec.strDec BDec.dcDefault (.int32 7) (BDec.zeroOfTy .tString) =
      .ok (.vString "int:7") ∧
    (BDec.DValue.vInt 7) ≠ .vString "int:7" := by
  refine ⟨rfl, rfl, ?_⟩
  simp
